import Mathlib

/-!
Verification of the playlist transformation engine of the repository
(`src/playlist-transformer.js`).  JavaScript strings are modelled as lists of
characters (`Str`); each JS primitive used by the source (trim, toLowerCase,
split, startsWith, `String.prototype.replace` with a string pattern) is given
an executable Lean counterpart, and the engine's functions
(`loadRemappingRules`, `parseVLCOpts`, `transformChannelToStremio`,
`parseM3U`, `loadAndTransform`) are translated from the source.
-/

set_option maxRecDepth 4000

namespace OMG

/-- JavaScript strings are modelled as lists of characters. -/
abbrev Str := List Char

/-- Embed a Lean string literal as a JS string value. -/
def str (s : String) : Str := s.data

/-- Whitespace characters recognised by `String.prototype.trim` (the ASCII
ones; the sources under consideration are ASCII). -/
def isWS (c : Char) : Bool :=
  c = ' ' || c = '\t' || c = '\n' || c = '\r' || c = '\x0b' || c = '\x0c'

/-- JS `s.trim()`. -/
def jsTrim (s : Str) : Str :=
  ((s.dropWhile isWS).reverse.dropWhile isWS).reverse

/-- JS `s.toLowerCase()` (ASCII). -/
def jsToLower (s : Str) : Str := s.map Char.toLower

/-- JS `s.startsWith(p)`. -/
def jsStartsWith (p s : Str) : Bool := p.isPrefixOf s

/-- JS `s.split(c)` for a one-character separator: never returns an empty list,
consecutive separators yield empty segments, exactly as in JavaScript. -/
def jsSplitChar (c : Char) : Str → List Str
  | [] => [[]]
  | x :: xs =>
    match jsSplitChar c xs with
    | [] => [[]]
    | r :: rs => if x = c then [] :: r :: rs else (x :: r) :: rs

/-- JS `s.replace(pat, rep)` with a *string* pattern: only the first occurrence
of `pat` is replaced (`pat` is nonempty in every use below). -/
def jsReplaceFirst (pat rep : Str) : Str → Str
  | [] => []
  | x :: xs =>
    if pat.isPrefixOf (x :: xs) then rep ++ (x :: xs).drop pat.length
    else x :: jsReplaceFirst pat rep xs

/-- Lookup in a JS `Map` / plain-object property table (first binding wins;
tables built by `mapSet` have unique keys). -/
def mapGet : List (Str × Str) → Str → Option Str
  | [], _ => none
  | p :: m, k => if p.1 = k then some p.2 else mapGet m k

/-- JS `Map.prototype.set` / object property assignment: replace the first
binding of the key in place, otherwise append a new binding. -/
def mapSet : List (Str × Str) → Str → Str → List (Str × Str)
  | [], a, b => [(a, b)]
  | p :: m, a, b => if p.1 = a then (a, b) :: m else p :: mapSet m a b

/-! The attribute scanner

`metadata.match(/([a-zA-Z-]+)="([^"]+)"/g)`: the JS engine scans start
positions left to right; at a given position the pattern matches a maximal
nonempty run of key characters followed by `="`, a maximal nonempty run of
non-quote characters, and a closing quote (no backtracking is possible for
this pattern since the key class excludes `=` and the value class excludes
`"`).  After a match the scan resumes at the end of the match; after a
failure it advances one character. -/

/-- Characters matched by `[a-zA-Z-]`. -/
def isKeyChar (c : Char) : Bool :=
  ('a' ≤ c && c ≤ 'z') || ('A' ≤ c && c ≤ 'Z') || c = '-'

/-- Try to match `([a-zA-Z-]+)="([^"]+)"` exactly at the head of `s`;
on success return the two captures and the remainder of the input after
the match. -/
def tryAttrAt (s : Str) : Option (Str × Str × Str) :=
  let key := s.takeWhile isKeyChar
  if key.isEmpty then none
  else
    match s.drop key.length with
    | '=' :: '"' :: r1 =>
      let v := r1.takeWhile (fun c => decide (c ≠ '"'))
      if v.isEmpty then none
      else
        match r1.drop v.length with
        | '"' :: r2 => some (key, v, r2)
        | _ => none
    | _ => none

/-- Worker for `scanAttrs`; the fuel is an upper bound on the number of scan
steps (each step consumes at least one character). -/
def scanAttrsGo : Nat → Str → List (Str × Str)
  | 0, _ => []
  | n + 1, s =>
    match tryAttrAt s with
    | some (k, v, r) => (k, v) :: scanAttrsGo n r
    | none =>
      match s with
      | [] => []
      | _ :: xs => scanAttrsGo n xs

/-- All matches of the global attribute regex, as (key, value) capture
pairs, in scan order. -/
def scanAttrs (s : Str) : List (Str × Str) := scanAttrsGo s.length s

/-- Try to match `lit([^"]+)"` exactly at the head of `s` (where `lit` ends
with the opening quote) and return the capture. -/
def tryCapAt (lit : Str) (s : Str) : Option Str :=
  if lit.isPrefixOf s then
    let r1 := s.drop lit.length
    let v := r1.takeWhile (fun c => decide (c ≠ '"'))
    if v.isEmpty then none
    else
      match r1.drop v.length with
      | '"' :: _ => some v
      | _ => none
  else none

/-- First match of `lit([^"]+)"` anywhere in the line (the JS
`String.prototype.match` with a non-global regex, capture 1). -/
def matchFirstCap (lit : Str) : Str → Option Str
  | [] => none
  | c :: cs =>
    match tryCapAt lit (c :: cs) with
    | some v => some v
    | none => matchFirstCap lit cs

/-- The source's `metadata.match(/group-title="([^"]+)"/)`, capture 1. -/
def matchGroupTitle (s : Str) : Option Str := matchFirstCap (str "group-title=\"") s

/-- The source's `lines[0].match(/url-tvg="([^"]+)"/)`, capture 1.  The source guards
this with `lines[0].includes('url-tvg=')`, which is implied by a successful
match and irrelevant on failure, so the guard is behaviourally redundant. -/
def matchUrlTvg (s : Str) : Option Str := matchFirstCap (str "url-tvg=\"") s

/-! Data model -/

/-- The transient `currentChannel` object built by `parseM3U` for one
playlist item (`url` is filled in when the stream-URL line arrives). -/
structure MChannel where
  name : Str
  group : Str
  tvg : List (Str × Str)
  headers : Option Str
  url : Str
deriving DecidableEq

/-- The durable channel record pushed into `stremioData.channels`
(`transformChannelToStremio`).  `tvgId`/`tvgName` model
`streamInfo.tvg.id`/`.name`; `urls` models `streamInfo.urls` as
(url, name) pairs; constant presentation fields (`type`, `posterShape`,
`runtime`, `behaviorHints`, `description`) are omitted as they are fixed
functions of the fields kept here. -/
structure StremioChannel where
  id : Str
  name : Str
  genre : List Str
  poster : Option Str
  urls : List (Str × Str)
  headers : Option Str
  tvgId : Str
  tvgName : Str
  tvg : List (Str × Str)
deriving DecidableEq

/-- The accumulator `this.stremioData` (the genre `Set` is a list in insertion order). -/
structure StremioData where
  genres : List Str
  channels : List StremioChannel
deriving DecidableEq

/-- The value returned by `parseM3U`. -/
structure ParseResult where
  genres : List Str
  channels : List StremioChannel
  epgUrl : Option Str
deriving DecidableEq

/-- The value returned by `loadAndTransform`. -/
structure Snapshot where
  genres : List Str
  channels : List StremioChannel
  epgUrl : Option Str
deriving DecidableEq

/-- JS `Set.prototype.add` on an insertion-ordered set. -/
def addSet (l : List Str) (x : Str) : List Str :=
  if x ∈ l then l else l ++ [x]

/-! loadRemappingRules -/

/-- Processing of one line of the remapping file (the body of the
`content.split('\n').forEach` loop): the accumulator is the rule map
together with the skipped-line counter. -/
def remapLineStep (acc : List (Str × Str) × Nat) (l : Str) : List (Str × Str) × Nat :=
  let line := jsTrim l
  if line = [] || jsStartsWith (str "#") line then acc
  else
    match (jsSplitChar '=' line).map (fun s => jsToLower (jsTrim s)) with
    | [] => acc
    | [_] => (acc.1, acc.2 + 1)
    | m3uId :: epgId :: _ =>
      if m3uId = [] || epgId = [] then (acc.1, acc.2 + 1)
      else (mapSet acc.1 m3uId epgId, acc.2)

/-- The function `loadRemappingRules`: `rules` is the instance's `this.remappingRules`
before the call (the map is *not* cleared by the source); `content` is the
file content, `none` when the file is absent (`ENOENT`) or unreadable, in
which case the map is left untouched.  The second component counts skipped
malformed lines. -/
def loadRemappingRules (rules : List (Str × Str)) (content : Option Str) :
    List (Str × Str) × Nat :=
  match content with
  | none => (rules, 0)
  | some text => (jsSplitChar '\n' text).foldl remapLineStep (rules, 0)

/-! transformChannelToStremio -/

/-- The identity computation at the head of `transformChannelToStremio`:
`(channel.tvg?.id || channel.name.trim()).toLowerCase()` followed by the
remapping-rule lookup (`remappedId.toLowerCase()`).  An empty `tvg.id`
attribute is falsy in JS, hence the fallback to the trimmed name. -/
def resolveChannelId (rules : List (Str × Str)) (ch : MChannel) : Str :=
  let raw := match mapGet ch.tvg (str "id") with
    | some v => if v = [] then jsTrim ch.name else v
    | none => jsTrim ch.name
  let channelId := jsToLower raw
  match mapGet rules channelId with
  | some r => jsToLower r
  | none => channelId

/-- The function `transformChannelToStremio`.  The conflict check only prints a warning
and has no effect on the data, so it is not modelled.  In the source the
merge branch mutates the channel object returned by `find`; because the
channel list can hold the same object at several positions (it is pushed
both here and by the caller) and distinct objects never share a tvg id,
that in-place mutation is modelled by updating every list entry with the
matching id. -/
def transformChannelToStremio (rules : List (Str × Str)) (d : StremioData) (ch : MChannel) :
    StremioData × Option StremioChannel :=
  let channelId := resolveChannelId rules ch
  if d.channels.any (fun c => decide (jsToLower c.tvgId = channelId)) then
    ({ d with channels := d.channels.map (fun c =>
        if jsToLower c.tvgId = channelId then { c with urls := c.urls ++ [(ch.url, ch.name)] }
        else c) },
     none)
  else
    let name := match mapGet ch.tvg (str "name") with
      | some v => if v = [] then ch.name else v
      | none => ch.name
    let group := if ch.group = [] then str "Altri canali" else ch.group
    let c : StremioChannel := {
      id := str "tv|" ++ channelId
      name := name
      genre := [group]
      poster := mapGet ch.tvg (str "logo")
      urls := [(ch.url, ch.name)]
      headers := ch.headers
      tvgId := channelId
      tvgName := name
      tvg := mapSet (mapSet ch.tvg (str "id") channelId) (str "name") name }
    ({ genres := addSet d.genres group, channels := d.channels ++ [c] }, some c)

/-! parseM3U -/

/-- The `#EXTINF` attribute collection: each regex match is processed by the
body of the `tvgMatches.forEach` loop (`match.split('=')`, destructure the
first two components, strip the first `tvg-` from the key, delete all `"`
from the value). -/
def applyAttr (m : List (Str × Str)) (kv : Str × Str) : List (Str × Str) :=
  let fullMatch := kv.1 ++ '=' :: '"' :: kv.2 ++ ['"']
  let parts := jsSplitChar '=' fullMatch
  let key := parts.headD []
  let value := (parts.drop 1).headD []
  mapSet m (jsReplaceFirst (str "tvg-") [] key) (value.filter (fun c => decide (c ≠ '"')))

/-- The `tvgData` mapping for one metadata line. -/
def parseExtinfTvg (metadata : Str) : List (Str × Str) :=
  (scanAttrs metadata).foldl applyAttr []

/-- The group extraction (`group-title` match with the `'Altri canali'`
default). -/
def parseExtinfGroup (metadata : Str) : Str :=
  match matchGroupTitle metadata with
  | some g => g
  | none => str "Altri canali"

/-- The display name: trailing comma-separated segment, trimmed. -/
def parseExtinfName (metadata : Str) : Str :=
  jsTrim ((jsSplitChar ',' metadata).getLastD [])

/-- The caller-side handling in `parseM3U` of a returned new channel: the source pushes the
channel inside `transformChannelToStremio` *and* pushes the non-null return
value again at the call site, so a newly created channel ends up in the list
twice. -/
def pushReturned (r : StremioData × Option StremioChannel) : StremioData :=
  match r.2 with
  | some c => { r.1 with channels := r.1.channels ++ [c] }
  | none => r.1

/-- State of the line scan: the accumulator object, the pending
`currentChannel`, and whether the scan position is still inside the
`#EXTVLCOPT:` block of the entry just opened.  The source consumes that
block with an inner lookahead loop (`parseVLCOpts`, operating on *raw*
lines) and jumps `i` past it; the flag realises the same scan as a single
line-by-line walk. -/
structure PState where
  d : StremioData
  current : Option MChannel
  optsMode : Bool
deriving DecidableEq

/-- The line loop of `parseM3U` (with `parseVLCOpts` fused in via
`optsMode`, see `PState`). -/
def parseLines (rules : List (Str × Str)) : PState → List Str → StremioData
  | st, [] => st.d
  | st, l :: ls =>
    if st.optsMode && jsStartsWith (str "#EXTVLCOPT:") l then
      let opt := jsTrim (l.drop 11)
      let setUA := fun (ch : MChannel) => { ch with headers := some (opt.drop 16) }
      let st2 := if jsStartsWith (str "http-user-agent=") opt
        then { st with current := st.current.map setUA }
        else st
      parseLines rules st2 ls
    else
      let st1 : PState := { st with optsMode := false }
      let line := jsTrim l
      if jsStartsWith (str "#EXTINF:") line then
        let metadata := jsTrim (line.drop 8)
        let pending : MChannel := {
          name := parseExtinfName metadata
          group := parseExtinfGroup metadata
          tvg := parseExtinfTvg metadata
          headers := none
          url := [] }
        parseLines rules { st1 with current := some pending, optsMode := true } ls
      else if jsStartsWith (str "http") line then
        match st1.current with
        | some ch =>
          parseLines rules
            { d := pushReturned (transformChannelToStremio rules st1.d { ch with url := line })
              current := none
              optsMode := false } ls
        | none => parseLines rules st1 ls
      else parseLines rules st1 ls

/-- The function `parseM3U`: reset the accumulator (adding the `'Altri canali'` sentinel
genre), read the guide URL off the first line, then run the line loop. -/
def parseM3U (rules : List (Str × Str)) (content : Str) : ParseResult :=
  let lines := jsSplitChar '\n' content
  let epgUrl := matchUrlTvg (lines.headD [])
  let d := parseLines rules
    { d := { genres := [str "Altri canali"], channels := [] }, current := none, optsMode := false }
    lines
  { genres := d.genres, channels := d.channels, epgUrl := epgUrl }

/-! loadAndTransform -/

/-- The per-channel accumulation of `loadAndTransform`:
push unless a channel with the same `id` is already present. -/
def dedupPush (cs : List StremioChannel) (c : StremioChannel) : List StremioChannel :=
  if cs.any (fun e => decide (e.id = c.id)) then cs else cs ++ [c]

/-- The run-wide accumulators of `loadAndTransform`. -/
structure AggState where
  allChannels : List StremioChannel
  allGenres : List Str
  allEpgUrls : List Str
deriving DecidableEq

/-- The body of the `for (const playlistUrl of playlistUrls)` loop, applied
to the *text* of one source document. -/
def aggStep (rules : List (Str × Str)) (acc : AggState) (doc : Str) : AggState :=
  let result := parseM3U rules doc
  { allChannels := result.channels.foldl dedupPush acc.allChannels
    allGenres := result.genres.foldl addSet acc.allGenres
    allEpgUrls := match result.epgUrl with
      | some u => if u = [] then acc.allEpgUrls else addSet acc.allEpgUrls u
      | none => acc.allEpgUrls }

/-- The function `loadAndTransform` on the text level: `rules0` is the instance's rule
map before the run, `remapFile` the remapping-file content (`none` when
absent) and `docs` the ordered document texts supplied by the retrieval
collaborator.  Returns the instance's rule map after the run together with
the published snapshot. -/
def loadAndTransform (rules0 : List (Str × Str)) (remapFile : Option Str) (docs : List Str) :
    List (Str × Str) × Snapshot :=
  let rules := (loadRemappingRules rules0 remapFile).1
  let a := docs.foldl (aggStep rules) { allChannels := [], allGenres := [], allEpgUrls := [] }
  (rules,
   { genres := a.allGenres
     channels := a.allChannels
     epgUrl := if a.allEpgUrls = [] then none
               else some (List.intercalate (str ",") a.allEpgUrls) })

/-- Specification-side first-occurrence de-duplication, written from the
spec's words ("union guide URLs, skipping exact duplicates", §4.5): keep the
first occurrence of each string, in order. -/
def specUniq : List Str → List Str
  | [] => []
  | x :: xs => x :: (specUniq xs).filter (fun y => decide (y ≠ x))

/-! Basic lemmas about the JS primitives -/

theorem mapGet_mapSet (m : List (Str × Str)) (a b k : Str) :
    mapGet (mapSet m a b) k = if a = k then some b else mapGet m k := by
  induction m with
  | nil => simp [mapSet, mapGet]
  | cons p m ih =>
    simp only [mapSet]
    by_cases hpa : p.1 = a
    · rw [if_pos hpa]
      by_cases hak : a = k
      · simp [mapGet, hak]
      · have hpk : ¬ p.1 = k := by rw [hpa]; exact hak
        simp [mapGet, hak, hpk]
    · rw [if_neg hpa]
      by_cases hpk : p.1 = k
      · have hak : ¬ a = k := fun hh => hpa (hpk.trans hh.symm)
        simp [mapGet, hpk, hak]
      · simp [mapGet, hpk, ih]

theorem mapGet_isSome_mapSet (m : List (Str × Str)) (a b k : Str)
    (h : (mapGet m k).isSome = true) : (mapGet (mapSet m a b) k).isSome = true := by
  rw [mapGet_mapSet]
  by_cases hak : a = k <;> simp [hak, h]

theorem mem_addSet_of_mem (l : List Str) (x y : Str) (h : x ∈ l) : x ∈ addSet l y := by
  unfold addSet
  by_cases hy : y ∈ l <;> simp [hy, h]

theorem mem_addSet_self (l : List Str) (y : Str) : y ∈ addSet l y := by
  unfold addSet
  by_cases hy : y ∈ l <;> simp [hy]

theorem mem_foldl_addSet_left (l : List Str) (acc : List Str) (x : Str) (h : x ∈ acc) :
    x ∈ l.foldl addSet acc := by
  induction l generalizing acc with
  | nil => exact h
  | cons y l ih => exact ih _ (mem_addSet_of_mem _ _ _ h)

theorem mem_foldl_addSet_right (l : List Str) (acc : List Str) (x : Str) (h : x ∈ l) :
    x ∈ l.foldl addSet acc := by
  induction l generalizing acc with
  | nil => cases h
  | cons y l ih =>
    rcases List.mem_cons.1 h with rfl | h
    · exact mem_foldl_addSet_left l (addSet acc x) x (mem_addSet_self acc x)
    · exact ih _ h

theorem jsSplitChar_ne_nil (c : Char) (s : Str) : jsSplitChar c s ≠ [] := by
  cases s with
  | nil => simp [jsSplitChar]
  | cons x xs =>
    simp only [jsSplitChar]
    cases h : jsSplitChar c xs with
    | nil => simp
    | cons r rs => by_cases hx : x = c <;> simp [hx]

theorem jsSplitChar_eq_single (c : Char) (s : Str) (h : ∀ x ∈ s, x ≠ c) :
    jsSplitChar c s = [s] := by
  induction s with
  | nil => rfl
  | cons x xs ih =>
    have hx : ¬ x = c := h x (List.mem_cons_self x xs)
    have hxs := ih (fun y hy => h y (List.mem_cons_of_mem _ hy))
    simp [jsSplitChar, hxs, hx]

theorem jsSplitChar_append (c : Char) (xs ys : Str) (h : ∀ x ∈ xs, x ≠ c) :
    jsSplitChar c (xs ++ c :: ys) = xs :: jsSplitChar c ys := by
  induction xs with
  | nil =>
    simp only [List.nil_append, jsSplitChar]
    cases hys : jsSplitChar c ys with
    | nil => exact absurd hys (jsSplitChar_ne_nil c ys)
    | cons r rs => simp
  | cons x xs ih =>
    have hx : ¬ x = c := h x (List.mem_cons_self x xs)
    have hxs := ih (fun y hy => h y (List.mem_cons_of_mem _ hy))
    simp only [List.cons_append, jsSplitChar, List.append_eq, hxs, hx, if_false]

theorem jsSplitChar_headD (c : Char) (s : Str) :
    (jsSplitChar c s).headD [] = s.takeWhile (fun x => decide (x ≠ c)) := by
  induction s with
  | nil => rfl
  | cons x xs ih =>
    simp only [jsSplitChar]
    cases h : jsSplitChar c xs with
    | nil => exact absurd h (jsSplitChar_ne_nil c xs)
    | cons r rs =>
      by_cases hx : x = c
      · simp [hx, List.takeWhile]
      · rw [h] at ih
        simp only [List.headD] at ih
        simp [hx, List.takeWhile, ih]

theorem length_takeWhile_le (p : Char → Bool) (l : Str) :
    (l.takeWhile p).length ≤ l.length := by
  induction l with
  | nil => simp
  | cons x l ih =>
    rw [List.takeWhile_cons]
    by_cases h : p x = true
    · simp only [h, if_true, List.length_cons]
      omega
    · simp [h]

/-! Lemmas about the attribute scanner -/

theorem tryAttrAt_props (s k v r : Str) (h : tryAttrAt s = some (k, v, r)) :
    k ≠ [] ∧ (∀ c ∈ k, isKeyChar c = true) ∧ v ≠ [] ∧ (∀ c ∈ v, c ≠ '"') ∧
      r.length < s.length := by
  simp only [tryAttrAt] at h
  split at h
  · exact absurd h (by simp)
  · rename_i hkey
    split at h
    · rename_i r1 heq1
      split at h
      · exact absurd h (by simp)
      · rename_i hv
        split at h
        · rename_i r2 heq2
          injection h with h
          injection h with hk h
          injection h with hvv hr
          subst hk; subst hvv; subst hr
          refine ⟨?_, ?_, ?_, ?_, ?_⟩
          · intro hnil
            rw [hnil] at hkey
            exact hkey rfl
          · intro c hc
            exact List.mem_takeWhile_imp hc
          · intro hnil
            rw [hnil] at hv
            exact hv rfl
          · intro c hc
            have := List.mem_takeWhile_imp hc
            exact of_decide_eq_true this
          · have h1 := congrArg List.length heq1
            have h2 := congrArg List.length heq2
            simp only [List.length_drop, List.length_cons] at h1 h2
            have h3 := length_takeWhile_le isKeyChar s
            have h4 := length_takeWhile_le (fun c => decide (c ≠ '"')) r1
            omega
        · exact absurd h (by simp)
    · exact absurd h (by simp)

theorem scanAttrsGo_mem_props (n : Nat) (s : Str) (kv : Str × Str)
    (h : kv ∈ scanAttrsGo n s) :
    kv.1 ≠ [] ∧ (∀ c ∈ kv.1, isKeyChar c = true) ∧ kv.2 ≠ [] ∧ ∀ c ∈ kv.2, c ≠ '"' := by
  induction n generalizing s with
  | zero => exact absurd h (by simp [scanAttrsGo])
  | succ n ih =>
    simp only [scanAttrsGo] at h
    split at h
    · rename_i k v r heq
      rcases List.mem_cons.1 h with rfl | h
      · obtain ⟨h1, h2, h3, h4, _⟩ := tryAttrAt_props s k v r heq
        exact ⟨h1, h2, h3, h4⟩
      · exact ih r h
    · split at h
      · exact absurd h (by simp)
      · exact ih _ h

theorem scanAttrs_mem_props (s : Str) (kv : Str × Str) (h : kv ∈ scanAttrs s) :
    kv.1 ≠ [] ∧ (∀ c ∈ kv.1, isKeyChar c = true) ∧ kv.2 ≠ [] ∧ ∀ c ∈ kv.2, c ≠ '"' :=
  scanAttrsGo_mem_props s.length s kv h

theorem takeWhile_filter_quote (v : Str) (hq : ∀ x ∈ v, x ≠ '"') :
    ((v ++ ['"']).takeWhile (fun c => decide (c ≠ '='))).filter (fun c => decide (c ≠ '"'))
      = v.takeWhile (fun c => decide (c ≠ '=')) := by
  induction v with
  | nil => rfl
  | cons x v ih =>
    have ihh := ih (fun y hy => hq y (List.mem_cons_of_mem _ hy))
    by_cases hx : x = '='
    · subst hx
      rfl
    · have hxq : x ≠ '"' := hq x (List.mem_cons_self x v)
      have hpx : decide (x ≠ '=') = true := by simp [hx]
      have hqx : decide (x ≠ '"') = true := by simp [hxq]
      simp only [List.cons_append, List.takeWhile_cons, List.filter_cons, hpx, hqx, if_true, ihh]

/-- The net effect of the source's `match.split('=')` destructuring on one
regex match `key="value"`: the bound value is the capture truncated at its
first `=` character (with the surrounding quotes gone), and the key loses
its first `tvg-` occurrence. -/
theorem applyAttr_eq (m : List (Str × Str)) (k v : Str)
    (hk : ∀ c ∈ k, isKeyChar c = true) (hq : ∀ c ∈ v, c ≠ '"') :
    applyAttr m (k, v) = mapSet m (jsReplaceFirst (str "tvg-") [] k)
      (v.takeWhile (fun c => decide (c ≠ '='))) := by
  have hkeq : ∀ x ∈ k, x ≠ '=' := by
    intro x hx hcontra
    have := hk x hx
    rw [hcontra] at this
    simp [isKeyChar] at this
  unfold applyAttr
  have hsplit : jsSplitChar '=' (k ++ '=' :: '"' :: v ++ ['"'])
      = k :: jsSplitChar '=' ('"' :: v ++ ['"']) := by
    have := jsSplitChar_append '=' k ('"' :: v ++ ['"']) hkeq
    simpa using this
  simp only [hsplit, List.headD, List.drop_one, List.tail_cons]
  have hhead : (jsSplitChar '=' ('"' :: v ++ ['"'])).headD []
      = ('"' :: v ++ ['"']).takeWhile (fun c => decide (c ≠ '=')) :=
    jsSplitChar_headD '=' _
  cases hsp : jsSplitChar '=' ('"' :: v ++ ['"']) with
  | nil => exact absurd hsp (jsSplitChar_ne_nil _ _)
  | cons hd tl =>
    rw [hsp] at hhead
    simp only [List.headD] at hhead
    subst hhead
    have hquote : (('"' :: v ++ ['"']).takeWhile (fun c => decide (c ≠ '='))).filter
        (fun c => decide (c ≠ '"')) = v.takeWhile (fun c => decide (c ≠ '=')) := by
      rw [List.cons_append, List.takeWhile_cons]
      simp only [show (decide ('"' ≠ '=')) = true from rfl, if_true, List.filter_cons]
      simp only [show (decide ('"' ≠ '"')) = false from rfl, if_false]
      exact takeWhile_filter_quote v hq
    rw [hquote]

/-! Lemmas about the line scan -/

theorem startsWith_http_not_extinf (s : Str) (h : jsStartsWith (str "http") s = true) :
    jsStartsWith (str "#EXTINF:") s = false := by
  have hh : str "http" = ['h', 't', 't', 'p'] := rfl
  have he : str "#EXTINF:" = ['#', 'E', 'X', 'T', 'I', 'N', 'F', ':'] := rfl
  cases s with
  | nil => simp [jsStartsWith, hh, List.isPrefixOf] at h
  | cons a t =>
    rw [jsStartsWith, hh] at h
    simp only [List.isPrefixOf, Bool.and_eq_true, beq_iff_eq] at h
    obtain ⟨rfl, -⟩ := h
    rw [jsStartsWith, he]
    simp [List.isPrefixOf]

theorem pushReturned_genres (r : StremioData × Option StremioChannel) :
    (pushReturned r).genres = r.1.genres := by
  rcases r with ⟨d, c⟩
  cases c <;> rfl

theorem transform_genres_mono (rules : List (Str × Str)) (d : StremioData) (ch : MChannel)
    (g : Str) (h : g ∈ d.genres) : g ∈ (transformChannelToStremio rules d ch).1.genres := by
  simp only [transformChannelToStremio]
  split
  · exact h
  · exact mem_addSet_of_mem _ _ _ h

theorem parseLines_genres_mono (rules : List (Str × Str)) (ls : List Str) (st : PState)
    (g : Str) (h : g ∈ st.d.genres) : g ∈ (parseLines rules st ls).genres := by
  induction ls generalizing st with
  | nil => exact h
  | cons l ls ih =>
    simp only [parseLines]
    split
    · split
      · exact ih _ h
      · exact ih _ h
    · split
      · exact ih _ h
      · split
        · split
          · rename_i ch _
            refine ih _ ?_
            rw [pushReturned_genres]
            exact transform_genres_mono _ _ _ _ h
          · exact ih _ h
        · exact ih _ h

theorem parseM3U_sentinel (rules : List (Str × Str)) (content : Str) :
    str "Altri canali" ∈ (parseM3U rules content).genres := by
  simp only [parseM3U]
  exact parseLines_genres_mono _ _ _ _ (by simp)

theorem aggFold_genres_mono (rules : List (Str × Str)) (docs : List Str) (acc : AggState)
    (g : Str) (h : g ∈ acc.allGenres) : g ∈ (docs.foldl (aggStep rules) acc).allGenres := by
  induction docs generalizing acc with
  | nil => exact h
  | cons d ds ih =>
    refine ih _ ?_
    simp only [aggStep]
    exact mem_foldl_addSet_left _ _ _ h

theorem loadAndTransform_sentinel (rules0 : List (Str × Str)) (rf : Option Str)
    (docs : List Str) (h : docs ≠ []) :
    str "Altri canali" ∈ (loadAndTransform rules0 rf docs).2.genres := by
  cases docs with
  | nil => exact absurd rfl h
  | cons d ds =>
    simp only [loadAndTransform, List.foldl_cons]
    refine aggFold_genres_mono _ _ _ _ ?_
    simp only [aggStep]
    exact mem_foldl_addSet_right _ _ _ (parseM3U_sentinel _ _)

/-- Completion step: with no options pending, a line whose trimmed form
starts with `http` closes the pending entry through
`transformChannelToStremio` (with the double push of `pushReturned`) and
clears the pending state. -/
theorem parseLines_http_step (rules : List (Str × Str)) (st : PState) (p : MChannel)
    (l : Str) (ls : List Str) (hcur : st.current = some p) (hopts : st.optsMode = false)
    (hhttp : jsStartsWith (str "http") (jsTrim l) = true) :
    parseLines rules st (l :: ls) = parseLines rules
      { d := pushReturned (transformChannelToStremio rules st.d { p with url := jsTrim l })
        current := none
        optsMode := false } ls := by
  obtain ⟨d, cur, opts⟩ := st
  simp only at hcur hopts
  subst hcur; subst hopts
  have hext := startsWith_http_not_extinf _ hhttp
  simp [parseLines, hext, hhttp]

/-- Skip step: with no options pending, a line that is neither an
`#EXTINF:` directive nor an `http` line leaves the state untouched. -/
theorem parseLines_skip_step (rules : List (Str × Str)) (st : PState)
    (l : Str) (ls : List Str) (hopts : st.optsMode = false)
    (hext : jsStartsWith (str "#EXTINF:") (jsTrim l) = false)
    (hhttp : jsStartsWith (str "http") (jsTrim l) = false) :
    parseLines rules st (l :: ls) = parseLines rules st ls := by
  obtain ⟨d, cur, opts⟩ := st
  simp only at hopts
  subst hopts
  simp [parseLines, hext, hhttp]

/-! Lemmas for the cross-document channel fold -/

theorem dedup_foldl_decomp (l cs : List StremioChannel) :
    ∃ rest, l.foldl dedupPush cs = cs ++ rest ∧
      ∀ c ∈ rest, (∀ e ∈ cs, e.id ≠ c.id) ∧ c ∈ l := by
  induction l generalizing cs with
  | nil => exact ⟨[], by simp, by simp⟩
  | cons c l ih =>
    simp only [List.foldl_cons]
    by_cases hc : cs.any (fun e => decide (e.id = c.id)) = true
    · have hstep : dedupPush cs c = cs := by simp [dedupPush, hc]
      rw [hstep]
      obtain ⟨rest, h1, h2⟩ := ih cs
      exact ⟨rest, h1, fun x hx => ⟨(h2 x hx).1, List.mem_cons_of_mem _ (h2 x hx).2⟩⟩
    · have hstep : dedupPush cs c = cs ++ [c] := by simp [dedupPush, hc]
      rw [hstep]
      obtain ⟨rest, h1, h2⟩ := ih (cs ++ [c])
      refine ⟨c :: rest, by rw [h1]; simp, ?_⟩
      have hfresh : ∀ e ∈ cs, e.id ≠ c.id := by
        intro e he hid
        apply hc
        simp only [List.any_eq_true, decide_eq_true_eq]
        exact ⟨e, he, hid⟩
      intro x hx
      rcases List.mem_cons.1 hx with rfl | hx
      · exact ⟨hfresh, List.mem_cons_self x l⟩
      · obtain ⟨hx1, hx2⟩ := h2 x hx
        exact ⟨fun e he => hx1 e (List.mem_append_left _ he), List.mem_cons_of_mem _ hx2⟩

/-! Lemmas for the guide-URL union -/

theorem specUniq_filter (p : Str → Bool) (l : List Str) :
    specUniq (l.filter p) = (specUniq l).filter p := by
  induction l with
  | nil => rfl
  | cons x l ih =>
    by_cases hx : p x = true
    · rw [List.filter_cons, if_pos hx]
      simp only [specUniq]
      rw [ih, List.filter_cons, if_pos hx, List.filter_comm]
    · rw [List.filter_cons, if_neg hx, ih]
      simp only [specUniq]
      rw [List.filter_cons, if_neg hx, List.filter_comm]
      symm
      rw [List.filter_eq_self]
      intro a ha
      have hpa : p a = true := (List.mem_filter.1 ha).2
      simp only [decide_eq_true_eq]
      intro hax
      rw [hax] at hpa
      exact hx hpa

theorem foldl_addSet_eq (l acc : List Str) :
    l.foldl addSet acc = acc ++ specUniq (l.filter (fun y => decide (y ∉ acc))) := by
  induction l generalizing acc with
  | nil => simp [specUniq]
  | cons x l ih =>
    by_cases hx : x ∈ acc
    · have h1 : addSet acc x = acc := by simp [addSet, hx]
      have h2 : ¬ decide (x ∉ acc) = true := by simp [hx]
      rw [List.foldl_cons, h1]
      simp only [List.filter_cons]
      rw [if_neg h2]
      exact ih acc
    · have h1 : addSet acc x = acc ++ [x] := by simp [addSet, hx]
      have h2 : decide (x ∉ acc) = true := by simp [hx]
      rw [List.foldl_cons, h1]
      simp only [List.filter_cons]
      rw [if_pos h2, ih (acc ++ [x])]
      have hff : l.filter (fun y => decide (y ∉ acc ++ [x]))
          = (l.filter (fun y => decide (y ∉ acc))).filter (fun y => decide (y ≠ x)) := by
        rw [List.filter_filter]
        apply List.filter_congr
        intro y hy
        by_cases hyx : y = x
        · subst hyx
          simp
        · by_cases hya : y ∈ acc <;> simp [hya, hyx]
      rw [hff, specUniq_filter]
      simp only [specUniq, List.append_assoc, List.singleton_append]

theorem tryCapAt_ne_nil (lit s v : Str) (h : tryCapAt lit s = some v) : v ≠ [] := by
  simp only [tryCapAt] at h
  split at h
  · split at h
    · exact absurd h (by simp)
    · rename_i hv
      split at h
      · injection h with h
        subst h
        intro hnil
        rw [hnil] at hv
        exact hv rfl
      · exact absurd h (by simp)
  · exact absurd h (by simp)

theorem matchFirstCap_ne_nil (lit s v : Str) (h : matchFirstCap lit s = some v) : v ≠ [] := by
  induction s with
  | nil => exact absurd h (by simp [matchFirstCap])
  | cons c cs ih =>
    simp only [matchFirstCap] at h
    split at h
    · rename_i v' heq
      injection h with h
      subst h
      exact tryCapAt_ne_nil _ _ _ heq
    · exact ih h

theorem parseM3U_epg_ne_nil (rules : List (Str × Str)) (content : Str) (u : Str)
    (h : (parseM3U rules content).epgUrl = some u) : u ≠ [] := by
  simp only [parseM3U] at h
  exact matchFirstCap_ne_nil _ _ _ h

theorem agg_epg_eq (rules : List (Str × Str)) (docs : List Str) (a : AggState) :
    (docs.foldl (aggStep rules) a).allEpgUrls
      = ((docs.filterMap (fun d => (parseM3U rules d).epgUrl)).foldl addSet a.allEpgUrls) := by
  induction docs generalizing a with
  | nil => rfl
  | cons d ds ih =>
    rw [List.foldl_cons, List.filterMap_cons]
    cases h : (parseM3U rules d).epgUrl with
    | none =>
      rw [ih]
      have : (aggStep rules a d).allEpgUrls = a.allEpgUrls := by simp [aggStep, h]
      rw [this]
    | some u =>
      have hne : u ≠ [] := parseM3U_epg_ne_nil rules d u h
      rw [List.foldl_cons, ih]
      have : (aggStep rules a d).allEpgUrls = addSet a.allEpgUrls u := by
        simp [aggStep, h, hne]
      rw [this]

/-! Lemmas for rule-map persistence across runs -/

theorem remapLineStep_shape (l : Str) :
    (∀ acc, remapLineStep acc l = acc) ∨
    (∀ acc, remapLineStep acc l = (acc.1, acc.2 + 1)) ∨
    (∃ m e, ∀ acc, remapLineStep acc l = (mapSet acc.1 m e, acc.2)) := by
  by_cases h1 : (decide (jsTrim l = []) || jsStartsWith (str "#") (jsTrim l)) = true
  · left
    intro acc
    simp [remapLineStep, h1]
  · cases hp : (jsSplitChar '=' (jsTrim l)).map (fun s => jsToLower (jsTrim s)) with
    | nil =>
      left
      intro acc
      simp [remapLineStep, h1, hp]
    | cons m rest =>
      cases rest with
      | nil =>
        right; left
        intro acc
        simp [remapLineStep, h1, hp]
      | cons e rest2 =>
        by_cases h2 : (decide (m = []) || decide (e = [])) = true
        · right; left
          intro acc
          simp [remapLineStep, h1, hp, h2]
        · right; right
          refine ⟨m, e, fun acc => ?_⟩
          simp [remapLineStep, h1, hp, h2]

theorem foldl_remap_presence (L : List Str) (acc : List (Str × Str) × Nat) (k : Str)
    (h : (mapGet acc.1 k).isSome = true) :
    (mapGet (L.foldl remapLineStep acc).1 k).isSome = true := by
  induction L generalizing acc with
  | nil => exact h
  | cons l L ih =>
    rcases remapLineStep_shape l with hs | hs | ⟨m, e, hs⟩
    · rw [List.foldl_cons, hs]
      exact ih _ h
    · rw [List.foldl_cons, hs]
      exact ih _ h
    · rw [List.foldl_cons, hs]
      exact ih _ (mapGet_isSome_mapSet _ _ _ _ h)

theorem foldl_remap_unbound (L : List Str) (k : Str) :
    ∀ a b : List (Str × Str) × Nat, mapGet (L.foldl remapLineStep a).1 k = none →
      mapGet (L.foldl remapLineStep b).1 k = mapGet b.1 k := by
  induction L with
  | nil =>
    intro a b _
    rfl
  | cons l L ih =>
    intro a b h
    rw [List.foldl_cons] at h ⊢
    rcases remapLineStep_shape l with hs | hs | ⟨m, e, hs⟩
    · rw [hs] at h ⊢
      exact ih _ _ h
    · rw [hs] at h ⊢
      exact ih _ _ h
    · rw [hs] at h ⊢
      by_cases hmk : m = k
      · exfalso
        subst hmk
        have hpres : (mapGet (mapSet a.1 m e) m).isSome = true := by
          rw [mapGet_mapSet]
          simp
        have hsome := foldl_remap_presence L (mapSet a.1 m e, a.2) m hpres
        rw [h] at hsome
        simp at hsome
      · rw [ih _ _ h, mapGet_mapSet, if_neg hmk]

theorem foldl_addSet_nil (l : List Str) : l.foldl addSet [] = specUniq l := by
  rw [foldl_addSet_eq]
  simp only [List.nil_append]
  congr 1
  rw [List.filter_eq_self]
  intro a _
  simp

theorem rules_persist (rules0 : List (Str × Str)) (content : Str) (k v : Str)
    (h0 : mapGet rules0 k = some v)
    (hfree : mapGet (loadRemappingRules [] (some content)).1 k = none) :
    mapGet (loadRemappingRules rules0 (some content)).1 k = some v := by
  simp only [loadRemappingRules] at hfree ⊢
  rw [foldl_remap_unbound _ k _ _ hfree]
  exact h0

/-! Claim theorems -/

/-- C1: the claim asserts that no two channels in `parseM3U`'s per-document
channels list share an identity.  The code violates this: every newly
created channel is pushed twice (once inside `transformChannelToStremio`,
line 178, and again by `parseM3U` on the non-null return value, line 235),
so a single-entry document already yields a channels list with the same
identity at two positions.  The aggregated list of `loadAndTransform` is
de-duplicated by `id` and masks the defect. -/
theorem claim_C1_duplicate_identities :
    (parseM3U [] (str "#EXTM3U\n#EXTINF:-1 tvg-id=\"ch1\",Channel One\nhttp://h/a")).channels.map
        (fun c => c.tvgId) = [str "ch1", str "ch1"]
    ∧ (loadAndTransform [] none
        [str "#EXTM3U\n#EXTINF:-1 tvg-id=\"ch1\",Channel One\nhttp://h/a"]).2.channels.map
        (fun c => c.tvgId) = [str "ch1"] :=
  ⟨by decide, by decide⟩

/-- C2 (counterexample): two documents yield entries with the same identity
`alpha`; contrary to the claim, the run-wide snapshot's single channel does
*not* gain the second document's stream URL — it keeps only the first
document's stream, and the later URL appears nowhere. -/
theorem claim_C2_counterexample :
    (loadAndTransform [] none
      [str "#EXTINF:-1 tvg-id=\"alpha\",A1\nhttp://h/u1",
       str "#EXTINF:-1 tvg-id=\"alpha\",A2\nhttp://h/u2"]).2.channels.map
      (fun c => (c.tvgId, c.urls)) = [(str "alpha", [(str "http://h/u1", str "A1")])]
    ∧ ((loadAndTransform [] none
      [str "#EXTINF:-1 tvg-id=\"alpha\",A1\nhttp://h/u1",
       str "#EXTINF:-1 tvg-id=\"alpha\",A2\nhttp://h/u2"]).2.channels.all
      (fun c => decide ((str "http://h/u2", str "A2") ∉ c.urls))) = true :=
  ⟨by decide, by decide⟩

/-- C2 (amended): when a later document is processed, every channel already
in the run-wide snapshot is preserved verbatim (fields *and* streams — no
stream URL is ever appended across documents), and the only channels added
are channels of the later document's parse whose identity is fresh; a later
entry whose identity collides with an existing channel is discarded
entirely. -/
theorem claim_C2_amended (rules0 : List (Str × Str)) (rf : Option Str)
    (docs : List Str) (d : Str) :
    ∃ rest,
      (loadAndTransform rules0 rf (docs ++ [d])).2.channels
        = (loadAndTransform rules0 rf docs).2.channels ++ rest ∧
      ∀ c ∈ rest, (∀ e ∈ (loadAndTransform rules0 rf docs).2.channels, e.id ≠ c.id) ∧
        c ∈ (parseM3U (loadRemappingRules rules0 rf).1 d).channels := by
  simp only [loadAndTransform, List.foldl_append, List.foldl_cons, List.foldl_nil, aggStep]
  exact dedup_foldl_decomp _ _

/-- Witness for C2 (amended) at the two concrete colliding documents. -/
theorem claim_C2_amended_witness :
    ∃ rest,
      (loadAndTransform [] none
          [str "#EXTINF:-1 tvg-id=\"alpha\",A1\nhttp://h/u1",
           str "#EXTINF:-1 tvg-id=\"alpha\",A2\nhttp://h/u2"]).2.channels
        = (loadAndTransform [] none
            [str "#EXTINF:-1 tvg-id=\"alpha\",A1\nhttp://h/u1"]).2.channels ++ rest ∧
      ∀ c ∈ rest,
        (∀ e ∈ (loadAndTransform [] none
            [str "#EXTINF:-1 tvg-id=\"alpha\",A1\nhttp://h/u1"]).2.channels, e.id ≠ c.id) ∧
        c ∈ (parseM3U (loadRemappingRules [] none).1
              (str "#EXTINF:-1 tvg-id=\"alpha\",A2\nhttp://h/u2")).channels :=
  claim_C2_amended [] none [str "#EXTINF:-1 tvg-id=\"alpha\",A1\nhttp://h/u1"]
    (str "#EXTINF:-1 tvg-id=\"alpha\",A2\nhttp://h/u2")

/-- C3: with the rule `chfoo=chbar`, a document containing an entry with
identity `chbar` and one remapped from `chfoo` produces one *merged*
channel — streams of length 2 in arrival order, name/genre/artwork from the
first entry, no new channel for the second entry — but, contrary to the
claim's "exactly one channel", the channels list holds that merged channel
at two positions because of the duplicated push of the newly created
channel. -/
theorem claim_C3_merged_channel_listed_twice :
    (parseM3U (loadRemappingRules [] (some (str "chfoo=chbar"))).1
      (str "#EXTM3U\n#EXTINF:-1 tvg-id=\"chbar\",Bar One\nhttp://h/u1\n#EXTINF:-1 tvg-id=\"chfoo\",Bar Two\nhttp://h/u2")).channels.map
      (fun c => (c.tvgId, c.name, c.genre, c.poster, c.urls)) =
    [(str "chbar", str "Bar One", [str "Altri canali"], none,
        [(str "http://h/u1", str "Bar One"), (str "http://h/u2", str "Bar Two")]),
     (str "chbar", str "Bar One", [str "Altri canali"], none,
        [(str "http://h/u1", str "Bar One"), (str "http://h/u2", str "Bar Two")])] := by
  rfl

/-- C4 (counterexample): for the metadata line `tvg-id="a=b",Name` the
attribute mapping binds `id` to `"a"`, not to the full quoted value
`"a=b"` — the `match.split('=')` destructuring truncates the value at its
first `=`. -/
theorem claim_C4_counterexample :
    parseExtinfTvg (str "tvg-id=\"a=b\",Name") = [(str "id", str "a")]
    ∧ mapGet (parseExtinfTvg (str "tvg-id=\"a=b\",Name")) (str "id") ≠ some (str "a=b") :=
  ⟨by decide, by decide⟩

/-- C4 (amended): for every metadata line, each regex-matched
`name="value"` pair binds the name (with the first `tvg-` occurrence
removed) to the quoted value truncated at its first `=` character — which
is exactly the quoted value whenever it contains no `=`; tokens that the
regex does not match contribute nothing and do not stop the scan of the
rest of the line. -/
theorem claim_C4_amended (metadata : Str) :
    parseExtinfTvg metadata =
      (scanAttrs metadata).foldl
        (fun m kv => mapSet m (jsReplaceFirst (str "tvg-") [] kv.1)
          (kv.2.takeWhile (fun c => decide (c ≠ '=')))) [] := by
  unfold parseExtinfTvg
  refine List.foldl_ext _ _ [] ?_
  intro m kv hkv
  obtain ⟨h1, h2, h3, h4⟩ := scanAttrs_mem_props metadata kv hkv
  exact applyAttr_eq m kv.1 kv.2 h2 h4

/-- C5: given a rule set mapping `chfoo` to `chbar` and an entry whose
explicit identity attribute is `chfoo`, the resolver yields `chbar`
(lower-casing the rule's value), and any channel record created for the
entry carries identity `chbar` namespaced with the `tv|` prefix. -/
theorem claim_C5_remap_applied (rules : List (Str × Str)) (d : StremioData) (ch : MChannel)
    (hrule : mapGet rules (str "chfoo") = some (str "chbar"))
    (hid : mapGet ch.tvg (str "id") = some (str "chfoo")) :
    resolveChannelId rules ch = str "chbar" ∧
    ∀ c, (transformChannelToStremio rules d ch).2 = some c →
      c.id = str "tv|chbar" ∧ c.tvgId = str "chbar" := by
  have hres : resolveChannelId rules ch = str "chbar" := by
    simp only [resolveChannelId, hid]
    have hne : ¬ (str "chfoo" = ([] : Str)) := by decide
    rw [if_neg hne]
    have hlow : jsToLower (str "chfoo") = str "chfoo" := by decide
    rw [hlow, hrule]
    decide
  refine ⟨hres, ?_⟩
  intro c hc
  simp only [transformChannelToStremio, hres] at hc
  split at hc
  · exact absurd hc (by simp)
  · injection hc with hc
    subst hc
    exact ⟨rfl, rfl⟩

/-- Witness for C5 at a concrete rule set, entry and state. -/
theorem claim_C5_remap_applied_witness :
    resolveChannelId [(str "chfoo", str "chbar")]
      { name := str "Foo", group := str "News", tvg := [(str "id", str "chfoo")],
        headers := none, url := str "http://h/u" } = str "chbar" ∧
    ∀ c, (transformChannelToStremio [(str "chfoo", str "chbar")]
        { genres := [str "Altri canali"], channels := [] }
        { name := str "Foo", group := str "News", tvg := [(str "id", str "chfoo")],
          headers := none, url := str "http://h/u" }).2 = some c →
      c.id = str "tv|chbar" ∧ c.tvgId = str "chbar" :=
  claim_C5_remap_applied [(str "chfoo", str "chbar")]
    { genres := [str "Altri canali"], channels := [] }
    { name := str "Foo", group := str "News", tvg := [(str "id", str "chfoo")],
      headers := none, url := str "http://h/u" }
    (by decide) (by decide)

/-- C6 (counterexample): the scanner recognises only lines starting with
`http`, not "any URL scheme": an `rtmp://` line does not complete the
pending entry (the entry is silently dropped), whereas the same document
with an `http://` line does produce a channel. -/
theorem claim_C6_counterexample :
    (parseM3U [] (str "#EXTM3U\n#EXTINF:-1,Channel\nrtmp://host/live")).channels = []
    ∧ (parseM3U [] (str "#EXTM3U\n#EXTINF:-1,Channel\nhttp://host/live")).channels ≠ [] :=
  ⟨by decide, by decide⟩

/-- C6 (amended): for a pending entry (option lines already consumed), a
line whose trimmed form begins with `http` — and only such a line — is
taken as the stream URL, completing and emitting the entry and clearing the
pending state; a line that is neither an `#EXTINF:` directive nor an `http`
line is skipped without affecting the pending entry. -/
theorem claim_C6_amended (rules : List (Str × Str)) (st : PState) (p : MChannel)
    (l : Str) (ls : List Str) (hcur : st.current = some p) (hopts : st.optsMode = false) :
    (jsStartsWith (str "http") (jsTrim l) = true →
      parseLines rules st (l :: ls) = parseLines rules
        { d := pushReturned (transformChannelToStremio rules st.d { p with url := jsTrim l })
          current := none
          optsMode := false } ls)
    ∧ (jsStartsWith (str "#EXTINF:") (jsTrim l) = false →
        jsStartsWith (str "http") (jsTrim l) = false →
        parseLines rules st (l :: ls) = parseLines rules st ls) :=
  ⟨fun hhttp => parseLines_http_step rules st p l ls hcur hopts hhttp,
   fun hext hhttp => parseLines_skip_step rules st l ls hopts hext hhttp⟩

/-- Witness for C6 (amended) at a concrete pending state: an `http` line
completes the entry; a comment line leaves the state untouched. -/
theorem claim_C6_amended_witness :
    (parseLines [] ⟨⟨[], []⟩, some ⟨str "C", str "G", [], none, []⟩, false⟩ [str "http://h/u"]
      = parseLines []
        ⟨pushReturned (transformChannelToStremio [] ⟨[], []⟩
            ⟨str "C", str "G", [], none, jsTrim (str "http://h/u")⟩), none, false⟩ [])
    ∧ (parseLines [] ⟨⟨[], []⟩, some ⟨str "C", str "G", [], none, []⟩, false⟩ [str "#comment"]
      = parseLines [] ⟨⟨[], []⟩, some ⟨str "C", str "G", [], none, []⟩, false⟩ []) :=
  ⟨(claim_C6_amended [] ⟨⟨[], []⟩, some ⟨str "C", str "G", [], none, []⟩, false⟩
      ⟨str "C", str "G", [], none, []⟩ (str "http://h/u") [] rfl rfl).1 (by decide),
   (claim_C6_amended [] ⟨⟨[], []⟩, some ⟨str "C", str "G", [], none, []⟩, false⟩
      ⟨str "C", str "G", [], none, []⟩ (str "#comment") [] rfl rfl).2 (by decide) (by decide)⟩

/-- C7: loading the remapping rules is total and line-local: blank lines
and `#`-comment lines change nothing; a line without `=`, or whose key or
value is empty after splitting, trimming and lower-casing, is skipped and
counted; a well-formed line stores exactly its first two `=`-separated
components, trimmed and lower-cased, as one rule; an absent file yields the
empty rule set (on a fresh instance) and a zero skip count. -/
theorem claim_C7_rules_loading (acc : List (Str × Str) × Nat) (l : Str) :
    ((jsTrim l = [] ∨ jsStartsWith (str "#") (jsTrim l) = true) → remapLineStep acc l = acc)
    ∧ (jsTrim l ≠ [] → jsStartsWith (str "#") (jsTrim l) = false →
        (∀ x ∈ jsTrim l, x ≠ '=') → remapLineStep acc l = (acc.1, acc.2 + 1))
    ∧ (∀ m e rest, jsTrim l ≠ [] → jsStartsWith (str "#") (jsTrim l) = false →
        (jsSplitChar '=' (jsTrim l)).map (fun s => jsToLower (jsTrim s)) = m :: e :: rest →
        (m = [] ∨ e = []) → remapLineStep acc l = (acc.1, acc.2 + 1))
    ∧ (∀ m e rest, jsTrim l ≠ [] → jsStartsWith (str "#") (jsTrim l) = false →
        (jsSplitChar '=' (jsTrim l)).map (fun s => jsToLower (jsTrim s)) = m :: e :: rest →
        m ≠ [] → e ≠ [] → remapLineStep acc l = (mapSet acc.1 m e, acc.2))
    ∧ loadRemappingRules [] none = ([], 0) := by
  refine ⟨?_, ?_, ?_, ?_, rfl⟩
  · intro h
    rcases h with h | h
    · simp [remapLineStep, h]
    · simp [remapLineStep, h]
  · intro h1 h2 h3
    have hsp : jsSplitChar '=' (jsTrim l) = [jsTrim l] := jsSplitChar_eq_single '=' _ h3
    simp [remapLineStep, h1, h2, hsp]
  · intro m e rest h1 h2 hsp hme
    have hcond : (decide (jsTrim l = []) || jsStartsWith (str "#") (jsTrim l)) = false := by
      simp [h1, h2]
    simp only [remapLineStep, hcond, Bool.false_eq_true, if_false, hsp]
    rcases hme with hme | hme <;> simp [hme]
  · intro m e rest h1 h2 hsp hm he
    have hcond : (decide (jsTrim l = []) || jsStartsWith (str "#") (jsTrim l)) = false := by
      simp [h1, h2]
    simp only [remapLineStep, hcond, Bool.false_eq_true, if_false, hsp]
    simp [hm, he]

/-- Witness for C7: a comment line, a line without `=`, a line with an
empty value, and a well-formed line with spaces and capitals, all at a
concrete accumulator; plus the absent-file case. -/
theorem claim_C7_rules_loading_witness :
    remapLineStep ([], 0) (str "# note") = ([], 0)
    ∧ remapLineStep ([], 0) (str "abc") = ([], 1)
    ∧ remapLineStep ([], 0) (str "a=") = ([], 1)
    ∧ remapLineStep ([], 0) (str " A = B ") = ([(str "a", str "b")], 0)
    ∧ loadRemappingRules [] none = ([], 0) :=
  ⟨(claim_C7_rules_loading ([], 0) (str "# note")).1 (Or.inr (by decide)),
   (claim_C7_rules_loading ([], 0) (str "abc")).2.1 (by decide) (by decide) (by decide),
   (claim_C7_rules_loading ([], 0) (str "a=")).2.2.1 (str "a") [] [] (by decide) (by decide)
     (by decide) (Or.inr rfl),
   (claim_C7_rules_loading ([], 0) (str " A = B ")).2.2.2.1 (str "a") (str "b") []
     (by decide) (by decide) (by decide) (by decide) (by decide),
   (claim_C7_rules_loading ([], 0) (str "x")).2.2.2.2⟩

/-- C8: the snapshot's guide URL is exactly the comma-join, in document
order, of the guide URLs discovered per document with exact duplicates
skipped (`specUniq`), and it is absent exactly when no document yields one;
at the spec's example inputs the result is
`"http://x/epg1,http://x/epg2"`. -/
theorem claim_C8_guide_union (rules0 : List (Str × Str)) (rf : Option Str) (docs : List Str) :
    ((loadAndTransform rules0 rf docs).2.epgUrl =
      if specUniq (docs.filterMap
            (fun d => (parseM3U (loadRemappingRules rules0 rf).1 d).epgUrl)) = []
      then none
      else some (List.intercalate (str ",")
        (specUniq (docs.filterMap
            (fun d => (parseM3U (loadRemappingRules rules0 rf).1 d).epgUrl)))))
    ∧ (loadAndTransform [] none
        [str "#EXTM3U url-tvg=\"http://x/epg1\"",
         str "#EXTM3U url-tvg=\"http://x/epg1\"",
         str "#EXTM3U url-tvg=\"http://x/epg2\""]).2.epgUrl
        = some (str "http://x/epg1,http://x/epg2") := by
  constructor
  · simp only [loadAndTransform]
    rw [agg_epg_eq]
    rw [show (AggState.mk [] [] []).allEpgUrls = [] from rfl, foldl_addSet_nil]
  · decide

/-- C9: an entry whose metadata line has no group attribute receives the
`Altri canali` sentinel genre; a channel created from such an entry carries
exactly that genre; and for every run over at least one document the
aggregate genre set contains the sentinel, regardless of the entries'
groups. -/
theorem claim_C9_default_genre :
    (∀ metadata, matchGroupTitle metadata = none → parseExtinfGroup metadata = str "Altri canali")
    ∧ (∀ rules d ch c, ch.group = str "Altri canali" →
        (transformChannelToStremio rules d ch).2 = some c → c.genre = [str "Altri canali"])
    ∧ (∀ rules0 rf docs, docs ≠ [] →
        str "Altri canali" ∈ (loadAndTransform rules0 rf docs).2.genres) := by
  refine ⟨?_, ?_, ?_⟩
  · intro metadata h
    simp [parseExtinfGroup, h]
  · intro rules d ch c hg hc
    simp only [transformChannelToStremio] at hc
    split at hc
    · exact absurd hc (by simp)
    · injection hc with hc
      subst hc
      have hne : ¬ (ch.group = ([] : Str)) := by
        rw [hg]
        decide
      simp [hg, hne]
  · intro rules0 rf docs h
    exact loadAndTransform_sentinel rules0 rf docs h

/-- Witness for C9: a group-free metadata line gets the sentinel; a
concrete channel built from a sentinel-group entry has genre
`["Altri canali"]`; a concrete one-document run contains the sentinel. -/
theorem claim_C9_default_genre_witness :
    parseExtinfGroup (str "-1,X") = str "Altri canali"
    ∧ (⟨str "tv|n", str "N", [str "Altri canali"], none, [(str "http://u", str "N")], none,
        str "n", str "N", [(str "id", str "n"), (str "name", str "N")]⟩ :
          StremioChannel).genre = [str "Altri canali"]
    ∧ str "Altri canali" ∈ (loadAndTransform [] none
        [str "#EXTM3U\n#EXTINF:-1 group-title=\"News\",N1\nhttp://h/n1"]).2.genres :=
  ⟨claim_C9_default_genre.1 (str "-1,X") (by decide),
   claim_C9_default_genre.2.1 [] ⟨[], []⟩ ⟨str "N", str "Altri canali", [], none, str "http://u"⟩
     ⟨str "tv|n", str "N", [str "Altri canali"], none, [(str "http://u", str "N")], none,
        str "n", str "N", [(str "id", str "n"), (str "name", str "N")]⟩
     (by decide) (by decide),
   claim_C9_default_genre.2.2 [] none
     [str "#EXTM3U\n#EXTINF:-1 group-title=\"News\",N1\nhttp://h/n1"] (by decide)⟩

/-- C10 (counterexample): the instance's rule map is *not* cleared between
runs.  Run 1 loads `alpha=beta`; run 2 is given an empty remapping file
(the rule has been removed), yet its effective rule set still contains
`alpha=beta`, while a fresh parse of the current (empty) content yields no
rules. -/
theorem claim_C10_counterexample :
    (loadAndTransform (loadAndTransform [] (some (str "alpha=beta")) []).1
        (some (str "")) []).1 = [(str "alpha", str "beta")]
    ∧ (loadRemappingRules [] (some (str ""))).1 = [] :=
  ⟨by decide, by decide⟩

/-- C10 (amended): `loadRemappingRules` runs at the start of every run
(the rule set `loadAndTransform` uses is exactly its result), but it merges
into the instance's persistent map without clearing it: any rule present
before the run whose key is not bound by the current file content survives
into the run's effective rule set. -/
theorem claim_C10_amended (rules0 : List (Str × Str)) (content : Str) (k v : Str)
    (docs : List Str)
    (h0 : mapGet rules0 k = some v)
    (hfree : mapGet (loadRemappingRules [] (some content)).1 k = none) :
    mapGet (loadRemappingRules rules0 (some content)).1 k = some v ∧
    (loadAndTransform rules0 (some content) docs).1
      = (loadRemappingRules rules0 (some content)).1 :=
  ⟨rules_persist rules0 content k v h0 hfree, rfl⟩

/-- Witness for C10 (amended): the rule `alpha=beta` loaded in an earlier
run survives a reload from an empty file. -/
theorem claim_C10_amended_witness :
    mapGet (loadRemappingRules [(str "alpha", str "beta")] (some (str ""))).1 (str "alpha")
      = some (str "beta") ∧
    (loadAndTransform [(str "alpha", str "beta")] (some (str "")) []).1
      = (loadRemappingRules [(str "alpha", str "beta")] (some (str ""))).1 :=
  claim_C10_amended [(str "alpha", str "beta")] (str "") (str "alpha") (str "beta") []
    (by decide) (by decide)

end OMG

